import Mathlib

/-!
# Verification of `netket/utils/group/axial.py`

Shallow embedding of the axial point-group module: operation builders
(rotation, reflection, rotoreflection, screw, glide, inversion) and group
constructors (C, S, Ch, Cv, D, Dh, Dd, reflection_group, glide_group,
inversion_group, screw_group), together with theorems settling the spec
claims about them.

Numbers are modelled exactly: geometry over `ℝ`, and the near-integer
termination test of `screw_group` over `ℚ` so that it is decidable.
Array-like vector arguments are modelled as `List ℝ`; `toVec` reads the
first three components.  Fallible constructs (the `ValueError` raised by
`reflection`, the `assert` statements) are modelled with `Except String`.
The unbounded generation loop of `screw_group` is modelled with explicit
fuel: `none` means the loop is still running after that many iterations.
-/

namespace Axial

open scoped Matrix

abbrev Vec3 := Fin 3 → ℝ
abbrev Mat3 := Matrix (Fin 3) (Fin 3) ℝ

/-- Reads an array-like argument as a 3-vector (component `i`, defaulting to 0). -/
def toVec (l : List ℝ) : Vec3 := fun i => l.getD i 0

/-- Euclidean norm of a 3-vector, `np.linalg.norm(v)`. -/
noncomputable def norm3 (v : Vec3) : ℝ := Real.sqrt (v 0 ^ 2 + v 1 ^ 2 + v 2 ^ 2)

/-- Componentwise division by the norm, `v / np.linalg.norm(v)`. -/
noncomputable def normalize3 (v : Vec3) : Vec3 := fun i => v i / norm3 v

/-- Outer product `np.outer(u, v)`. -/
def outerM (u v : Vec3) : Mat3 := Matrix.of fun i j => u i * v j

/-- Cross-product matrix `np.cross(np.eye(3), a)`: row `i` is `eᵢ × a`,
so that `crossM a *ᵥ v = a × v`. -/
def crossM (a : Vec3) : Mat3 := !![0, -a 2, a 1; a 2, 0, -a 0; -a 1, a 0, 0]

/-- Degrees to radians, `np.radians`. -/
noncomputable def radians (x : ℝ) : ℝ := x * Real.pi / 180

/-- Elementwise scalar multiple of an array-like, `c * np.asarray(l)`. -/
def scaleL (c : ℝ) (l : List ℝ) : List ℝ := l.map fun x => c * x

/-- Dot product `np.dot(u, v)` of two equal-length array-likes. -/
def dotL (u v : List ℝ) : ℝ := (List.zipWith (fun x y => x * y) u v).sum

/-- Absolute tolerance of `np.isclose` (default `atol = 1e-8`). -/
noncomputable def atol : ℝ := 1 / 100000000

/-- Near-zero test `np.isclose(x, 0.0)`: with second argument `0.0` the
relative-tolerance term vanishes, leaving `|x| ≤ atol`. -/
def isCloseZero (x : ℝ) : Prop := |x| ≤ atol

noncomputable instance : DecidablePred isCloseZero :=
  fun x => inferInstanceAs (Decidable (|x| ≤ atol))

/-- Modelled from the spec: the near-integer test collaborator
`netket.utils.float.is_approx_int` (not part of the sources), which
"given a real number and an implicit/explicit tolerance, reports whether it
is numerically indistinguishable from an integer".  Tolerance `1e-8`. -/
def is_approx_int (x : ℚ) : Prop := |x - round x| ≤ 1 / 100000000

instance : DecidablePred is_approx_int :=
  fun x => inferInstanceAs (Decidable (|x - round x| ≤ 1 / 100000000))

/-- Modelled from the spec: the operation-algebra collaborator's
`PGSymmetry` value, "an affine map on 3-space, represented as a 3×3 linear
part `W` and a 3-vector translation `w`"; `w = 0` when omitted. -/
structure PGSymmetry where
  W : Mat3
  w : Vec3

/-- Modelled from the spec: an element of a symmetry group is either the
distinguished `Identity` or a `PGSymmetry`. -/
inductive Element where
  | identity : Element
  | pg : PGSymmetry → Element

/-- Modelled from the spec: the group-container collaborator's
`PointGroup`, "an ordered sequence of SymmetryOperation ... tagged with an
ambient dimension (always 3 in this module)". -/
structure PointGroup where
  elems : List Element
  ndim : ℕ

/-- Modelled from the spec: composition of symmetry operations supplied by
the operation-algebra collaborator; `Identity` is neutral and affine maps
compose as `(W₁, w₁) ∘ (W₂, w₂) = (W₁·W₂, W₁·w₂ + w₁)`. -/
noncomputable def elemMul : Element → Element → Element
  | Element.identity, e => e
  | e, Element.identity => e
  | Element.pg s, Element.pg t => Element.pg ⟨s.W * t.W, s.W *ᵥ t.w + s.w⟩

/-- Modelled from the spec: the group-composition operator `@` of the
container collaborator: "`(A @ B)`'s elements = all products of an element
of A with an element of B". -/
noncomputable def pgProd (A B : PointGroup) : PointGroup :=
  ⟨A.elems.flatMap fun a => B.elems.map fun b => elemMul a b, 3⟩

/-- Unit-norm predicate for 3-vectors (sum of squared components is 1). -/
def unitVec (a : Vec3) : Prop := a 0 ^ 2 + a 1 ^ 2 + a 2 ^ 2 = 1

/-- Rodrigues-form matrix with symbolic cosine and sine, used to reason
about the rotation linear parts. -/
noncomputable def rotM (c s : ℝ) (a : Vec3) : Mat3 :=
  c • (1 : Mat3) + s • crossM a + (1 - c) • outerM a a

/-! ## Operation builders -/

/-- Linear part of `rotation(angle, axis)`: Rodrigues' formula
`cos θ · I + sin θ · np.cross(I, a) + (1 − cos θ) · np.outer(a, a)`
with `θ = np.radians(angle)` and `a = axis / np.linalg.norm(axis)`. -/
noncomputable def rotW (angle : ℝ) (axis : Vec3) : Mat3 :=
  let θ := radians angle
  let a := normalize3 axis
  Real.cos θ • (1 : Mat3) + Real.sin θ • crossM a + (1 - Real.cos θ) • outerM a a

/-- `rotation(angle, axis)`: a pure rotation, no translation. -/
noncomputable def rotation (angle : ℝ) (axis : List ℝ) : PGSymmetry :=
  ⟨rotW angle (toVec axis), 0⟩

/-- `C(n, axis)`: `PointGroup([Identity()] + [rotation(360 / n * i, axis)
for i in range(1, n)], ndim=3)`.  Note the division `360 / n` sits inside
the comprehension body, so it is only evaluated when `range(1, n)` is
non-empty, i.e. when `n ≥ 2`. -/
noncomputable def C (n : ℤ) (axis : List ℝ) : PointGroup :=
  ⟨Element.identity :: ((List.range (n - 1).toNat).map fun (i : ℕ) =>
      Element.pg (rotation (360 / (n : ℝ) * ((i : ℝ) + 1)) axis)), 3⟩

/-- `screw(angle, trans, origin)`: rotation by `angle` about the direction
of `trans` through `origin`, composed with translation by `trans`;
`w = trans + (I − W) @ origin`. -/
noncomputable def screw (angle : ℝ) (trans : List ℝ) (origin : List ℝ) : PGSymmetry :=
  let θ := radians angle
  let a := normalize3 (toVec trans)
  let W : Mat3 :=
    Real.cos θ • (1 : Mat3) + Real.sin θ • crossM a + (1 - Real.cos θ) • outerM a a
  ⟨W, toVec trans + (1 - W) *ᵥ toVec origin⟩

/-- Element appended by the `screw_group` loop at index `i`:
`screw(i * angle, i * trans, origin)`. -/
noncomputable def screwElem (angle : ℚ) (trans origin : List ℝ) (i : ℕ) : Element :=
  Element.pg (screw (((i : ℚ) * angle : ℚ) : ℝ) (scaleL (i : ℝ) trans) origin)

/-- Body of the `for i in count(start=1)` loop of `screw_group`, with
explicit fuel: at index `i` with accumulator `acc`, break (returning the
group) if `is_approx_int(i * angle / 360)`, else append
`screw(i * angle, i * trans, origin)` and continue.  `none` means the loop
is still running after the given number of iterations. -/
noncomputable def screwGroupLoop (angle : ℚ) (trans origin : List ℝ) :
    ℕ → ℕ → List Element → Option PointGroup
  | 0, _, _ => none
  | fuel + 1, i, acc =>
    if is_approx_int ((i : ℚ) * angle / 360) then some ⟨acc, 3⟩
    else screwGroupLoop angle trans origin fuel (i + 1)
        (acc ++ [screwElem angle trans origin i])

/-- `screw_group(angle, trans, origin)`: starts from `[Identity()]` and runs
the generation loop from `i = 1`.  The extra `fuel` argument bounds how many
loop iterations are unfolded; the source loop itself is unbounded. -/
noncomputable def screw_group (angle : ℚ) (trans origin : List ℝ) (fuel : ℕ) :
    Option PointGroup :=
  screwGroupLoop angle trans origin fuel 1 [Element.identity]

/-- `inversion()`: `PGSymmetry(-np.eye(3))`. -/
noncomputable def inversion : PGSymmetry := ⟨-1, 0⟩

/-- `inversion_group()`: `PointGroup([Identity(), inversion()], ndim=3)`. -/
noncomputable def inversion_group : PointGroup :=
  ⟨[Element.identity, Element.pg inversion], 3⟩

/-- `reflection(axis)`: raises `ValueError` unless `axis` has exactly 3
components; otherwise `PGSymmetry(np.eye(3) - 2 * np.outer(a, a))` with
`a = axis / np.linalg.norm(axis)`. -/
noncomputable def reflection (axis : List ℝ) : Except String PGSymmetry :=
  if axis.length ≠ 3 then
    Except.error ("The axis must be a 3 component vector." ++
      "If you want reflections in 2 dimensions, use " ++
      "nk.utils.group.planar.reflection instead.")
  else
    let a := normalize3 (toVec axis)
    Except.ok ⟨1 - (2 : ℝ) • outerM a a, 0⟩

/-- `reflection_group(axis)`: `PointGroup([Identity(), reflection(axis)], ndim=3)`. -/
noncomputable def reflection_group (axis : List ℝ) : Except String PointGroup :=
  (reflection axis).map fun r => ⟨[Element.identity, Element.pg r], 3⟩

/-- `glide(axis, trans, origin)`: asserts `np.isclose(np.dot(axis, trans), 0.0)`,
then builds the reflection linear part across the plane normal to `axis` and
translation `w = trans + (I − W) @ origin`. -/
noncomputable def glide (axis trans origin : List ℝ) : Except String PGSymmetry :=
  if isCloseZero (dotL axis trans) then
    let a := normalize3 (toVec axis)
    let W : Mat3 := 1 - (2 : ℝ) • outerM a a
    Except.ok ⟨W, toVec trans + (1 - W) *ᵥ toVec origin⟩
  else Except.error "AssertionError"

/-- `glide_group(axis, trans, origin)`: `PointGroup([Identity(), glide(...)], ndim=3)`. -/
noncomputable def glide_group (axis trans origin : List ℝ) : Except String PointGroup :=
  (glide axis trans origin).map fun g => ⟨[Element.identity, Element.pg g], 3⟩

/-- `Ch(n, axis) = reflection_group(axis) @ C(n, axis)`. -/
noncomputable def Ch (n : ℤ) (axis : List ℝ) : Except String PointGroup :=
  (reflection_group axis).map fun rg => pgProd rg (C n axis)

/-- `Cv(n, axis, axis2)`: asserts `np.isclose(np.dot(axis, axis2), 0.0)`,
then `reflection_group(axis2) @ C(n, axis)`. -/
noncomputable def Cv (n : ℤ) (axis axis2 : List ℝ) : Except String PointGroup :=
  if isCloseZero (dotL axis axis2) then
    (reflection_group axis2).map fun rg => pgProd rg (C n axis)
  else Except.error "AssertionError"

/-- Linear part of `rotoreflection(angle, axis)`:
`(np.eye(3) - 2 * np.outer(a, a)) @ rot_matrix` with the Rodrigues rotation
matrix for the same normalized axis. -/
noncomputable def rotoreflection (angle : ℝ) (axis : List ℝ) : PGSymmetry :=
  let θ := radians angle
  let a := normalize3 (toVec axis)
  let rot_matrix : Mat3 :=
    Real.cos θ • (1 : Mat3) + Real.sin θ • crossM a + (1 - Real.cos θ) • outerM a a
  let refl_matrix : Mat3 := 1 - (2 : ℝ) • outerM a a
  ⟨refl_matrix * rot_matrix, 0⟩

/-- `S(n, axis)`: `Ch(n, axis)` when `n` is odd; when `n` is even, the
direct list alternating `rotoreflection(360 / n * i)` (odd `i`) with
`rotation(360 / n * i)` (even `i`) for `i in range(1, n)`.  As in `C`, the
division `360 / n` only occurs inside the comprehension body. -/
noncomputable def S (n : ℤ) (axis : List ℝ) : Except String PointGroup :=
  if n % 2 = 1 then Ch n axis
  else Except.ok ⟨Element.identity :: ((List.range (n - 1).toNat).map fun (i : ℕ) =>
      if (i + 1) % 2 = 1 then
        Element.pg (rotoreflection (360 / (n : ℝ) * ((i : ℝ) + 1)) axis)
      else
        Element.pg (rotation (360 / (n : ℝ) * ((i : ℝ) + 1)) axis)), 3⟩

/-- `D(n, axis, axis2)`: asserts `np.isclose(np.dot(axis, axis2), 0.0)`,
then `C(2, axis2) @ C(n, axis)`. -/
noncomputable def D (n : ℤ) (axis axis2 : List ℝ) : Except String PointGroup :=
  if isCloseZero (dotL axis axis2) then Except.ok (pgProd (C 2 axis2) (C n axis))
  else Except.error "AssertionError"

/-- `Dh(n, axis, axis2) = reflection_group(axis) @ D(n, axis, axis2)`
(the perpendicularity assert lives inside `D`). -/
noncomputable def Dh (n : ℤ) (axis axis2 : List ℝ) : Except String PointGroup := do
  let rg ← reflection_group axis
  let d ← D n axis axis2
  return pgProd rg d

/-- `Dd(n, axis, axis2)`: asserts `np.isclose(np.dot(axis, axis2), 0.0)`,
then `reflection_group(axis2) @ S(2 * n, axis)`. -/
noncomputable def Dd (n : ℤ) (axis axis2 : List ℝ) : Except String PointGroup :=
  if isCloseZero (dotL axis axis2) then do
    let rg ← reflection_group axis2
    let s ← S (2 * n) axis
    return pgProd rg s
  else Except.error "AssertionError"

/-! ## Algebra of the Rodrigues building blocks -/

theorem outerM_mul_outerM {a : Vec3} (ha : unitVec a) :
    outerM a a * outerM a a = outerM a a := by
  have h : a 0 ^ 2 + a 1 ^ 2 + a 2 ^ 2 = 1 := ha
  ext i j
  simp only [outerM, Matrix.mul_apply, Fin.sum_univ_three, Matrix.of_apply]
  linear_combination (a i * a j) * h

theorem crossM_mul_outerM (a : Vec3) : crossM a * outerM a a = 0 := by
  ext i j
  simp only [crossM, outerM, Matrix.mul_apply, Fin.sum_univ_three, Matrix.of_apply,
    Matrix.zero_apply]
  fin_cases i <;> fin_cases j <;>
    simp [Matrix.cons_val_zero, Matrix.cons_val_one, Matrix.head_cons] <;> ring

theorem outerM_mul_crossM (a : Vec3) : outerM a a * crossM a = 0 := by
  ext i j
  simp only [crossM, outerM, Matrix.mul_apply, Fin.sum_univ_three, Matrix.of_apply,
    Matrix.zero_apply]
  fin_cases i <;> fin_cases j <;>
    simp [Matrix.cons_val_zero, Matrix.cons_val_one, Matrix.head_cons] <;> ring

theorem crossM_mul_crossM {a : Vec3} (ha : unitVec a) :
    crossM a * crossM a = outerM a a - 1 := by
  have h : a 0 ^ 2 + a 1 ^ 2 + a 2 ^ 2 = 1 := ha
  ext i j
  simp only [crossM, outerM, Matrix.mul_apply, Fin.sum_univ_three, Matrix.of_apply,
    Matrix.sub_apply, Matrix.one_apply]
  fin_cases i <;> fin_cases j <;>
    simp [Matrix.cons_val_zero, Matrix.cons_val_one, Matrix.head_cons] <;>
    first
    | linear_combination -h
    | ring

theorem crossM_transpose (a : Vec3) : (crossM a)ᵀ = -(crossM a) := by
  ext i j
  simp only [crossM, Matrix.transpose_apply, Matrix.neg_apply]
  fin_cases i <;> fin_cases j <;>
    simp [Matrix.cons_val_zero, Matrix.cons_val_one, Matrix.head_cons]

theorem outerM_transpose (a : Vec3) : (outerM a a)ᵀ = outerM a a := by
  ext i j
  simp only [outerM, Matrix.transpose_apply, Matrix.of_apply]
  ring

theorem rotM_mul {a : Vec3} (ha : unitVec a) (c₁ s₁ c₂ s₂ : ℝ) :
    rotM c₁ s₁ a * rotM c₂ s₂ a =
      rotM (c₁ * c₂ - s₁ * s₂) (s₁ * c₂ + c₁ * s₂) a := by
  unfold rotM
  simp only [add_mul, mul_add, Matrix.smul_mul, Matrix.mul_smul, smul_smul,
    one_mul, mul_one, crossM_mul_crossM ha, crossM_mul_outerM,
    outerM_mul_crossM, outerM_mul_outerM ha, smul_zero, add_zero, smul_sub]
  module

theorem rotM_one (a : Vec3) : rotM 1 0 a = 1 := by
  simp [rotM]

theorem rotM_transpose (c s : ℝ) (a : Vec3) : (rotM c s a)ᵀ = rotM c (-s) a := by
  unfold rotM
  simp only [Matrix.transpose_add, Matrix.transpose_smul, Matrix.transpose_one,
    crossM_transpose, outerM_transpose, smul_neg, neg_smul]

theorem rotM_orthogonal {a : Vec3} (ha : unitVec a) {c s : ℝ}
    (hcs : c ^ 2 + s ^ 2 = 1) : (rotM c s a)ᵀ * rotM c s a = 1 := by
  rw [rotM_transpose, rotM_mul ha]
  have h1 : c * c - -s * s = 1 := by nlinarith [hcs]
  have h2 : -s * c + c * s = 0 := by ring
  rw [h1, h2, rotM_one]

theorem unitVec_normalize3 {v : Vec3} (hv : v ≠ 0) : unitVec (normalize3 v) := by
  have hS : 0 < v 0 ^ 2 + v 1 ^ 2 + v 2 ^ 2 := by
    rcases (by positivity : (0 : ℝ) ≤ v 0 ^ 2 + v 1 ^ 2 + v 2 ^ 2).lt_or_eq with h | h
    · exact h
    · exfalso
      apply hv
      have h0 : v 0 = 0 := by nlinarith [sq_nonneg (v 0), sq_nonneg (v 1), sq_nonneg (v 2)]
      have h1 : v 1 = 0 := by nlinarith [sq_nonneg (v 0), sq_nonneg (v 1), sq_nonneg (v 2)]
      have h2 : v 2 = 0 := by nlinarith [sq_nonneg (v 0), sq_nonneg (v 1), sq_nonneg (v 2)]
      funext i
      fin_cases i
      · exact h0
      · exact h1
      · exact h2
  have hnorm : norm3 v ^ 2 = v 0 ^ 2 + v 1 ^ 2 + v 2 ^ 2 := Real.sq_sqrt hS.le
  have hn0 : norm3 v ≠ 0 := by
    intro h
    rw [h] at hnorm
    nlinarith
  unfold unitVec normalize3
  field_simp
  linarith [hnorm]

theorem rotM_pow {a : Vec3} (ha : unitVec a) (x : ℝ) (k : ℕ) :
    rotM (Real.cos x) (Real.sin x) a ^ k =
      rotM (Real.cos (k * x)) (Real.sin (k * x)) a := by
  induction k with
  | zero => simp [rotM_one]
  | succ k ih =>
    have harg : ((k + 1 : ℕ) : ℝ) * x = (k : ℝ) * x + x := by push_cast; ring
    rw [pow_succ, ih, rotM_mul ha, ← Real.cos_add, ← Real.sin_add, harg]

theorem reflW_orthogonal {a : Vec3} (ha : unitVec a) :
    (1 - (2 : ℝ) • outerM a a)ᵀ * (1 - (2 : ℝ) • outerM a a) = 1 := by
  have hP := outerM_mul_outerM ha
  simp only [Matrix.transpose_sub, Matrix.transpose_one, Matrix.transpose_smul,
    outerM_transpose, sub_mul, mul_sub, one_mul, mul_one, Matrix.smul_mul,
    Matrix.mul_smul, smul_smul, hP]
  module

theorem transpose_mul_self_of {A B : Mat3} (hA : Aᵀ * A = 1) (hB : Bᵀ * B = 1) :
    (A * B)ᵀ * (A * B) = 1 := by
  rw [Matrix.transpose_mul, Matrix.mul_assoc, ← Matrix.mul_assoc Aᵀ A B, hA, Matrix.one_mul,
    hB]

/-! ## Behaviour of the screw-group loop -/

theorem screwGroupLoop_eq_none (angle : ℚ) (trans origin : List ℝ) :
    ∀ (fuel i : ℕ) (acc : List Element),
      (∀ j, i ≤ j → j < i + fuel → ¬ is_approx_int ((j : ℚ) * angle / 360)) →
      screwGroupLoop angle trans origin fuel i acc = none := by
  intro fuel
  induction fuel with
  | zero => intro i acc _; rfl
  | succ fuel ih =>
    intro i acc h
    simp only [screwGroupLoop]
    rw [if_neg (h i le_rfl (by omega))]
    exact ih (i + 1) _ (fun j h1 h2 => h j (by omega) (by omega))

theorem cons_range_map_shift (e : ℕ → Element) (i m : ℕ) :
    e i :: (List.range m).map (fun t => e (i + 1 + t)) =
      (List.range (m + 1)).map (fun t => e (i + t)) := by
  have hf : ((fun t => e (i + t)) ∘ Nat.succ) = fun t => e (i + 1 + t) := by
    funext t
    simp only [Function.comp_apply, Nat.succ_eq_add_one]
    congr 1
    omega
  rw [List.range_succ_eq_map, List.map_cons, List.map_map, hf]
  congr 1

theorem screwGroupLoop_closes (angle : ℚ) (trans origin : List ℝ) :
    ∀ (fuel i k : ℕ) (acc : List Element),
      i ≤ k → k - i < fuel →
      is_approx_int ((k : ℚ) * angle / 360) →
      (∀ j, i ≤ j → j < k → ¬ is_approx_int ((j : ℚ) * angle / 360)) →
      screwGroupLoop angle trans origin fuel i acc =
        some ⟨acc ++ (List.range (k - i)).map
          (fun t => screwElem angle trans origin (i + t)), 3⟩ := by
  intro fuel
  induction fuel with
  | zero => intro i k acc h1 h2 _ _; omega
  | succ fuel ih =>
    intro i k acc hik hk hcl hmin
    by_cases hi : is_approx_int ((i : ℚ) * angle / 360)
    · have hik0 : i = k := by
        by_contra hne
        exact hmin i le_rfl (by omega) hi
      subst hik0
      simp [screwGroupLoop, if_pos hi]
    · have hik' : i + 1 ≤ k := by
        rcases eq_or_lt_of_le hik with h | h
        · exact absurd hcl (h ▸ hi)
        · omega
      simp only [screwGroupLoop]
      rw [if_neg hi,
        ih (i + 1) k _ hik' (by omega) hcl (fun j h1 h2 => hmin j (by omega) h2)]
      have hki : k - i = (k - (i + 1)) + 1 := by omega
      rw [List.append_assoc, List.singleton_append, cons_range_map_shift, ← hki]

/-! ## Small concrete facts -/

theorem toVec_zero_list : toVec [0, 0, 0] = 0 := by
  funext i
  fin_cases i <;> rfl

theorem toVec_e3_ne_zero : toVec [0, 0, 1] ≠ 0 := by
  intro h
  have h2 : (1 : ℝ) = 0 := congrFun h 2
  exact one_ne_zero h2

theorem toVec_e1_ne_zero : toVec [1, 0, 0] ≠ 0 := by
  intro h
  have h2 : (1 : ℝ) = 0 := congrFun h 0
  exact one_ne_zero h2

/-! ## Claims -/

/-- C10: the claim asserts that `C(0, axis)` fails with a division-by-zero
error.  It does not: the division `360 / n` sits inside the comprehension
body, `range(1, 0)` is empty, so the division is never evaluated and the
call returns the one-element group `[Identity]`. -/
theorem claim_C10_counterexample : C 0 [0, 0, 1] = ⟨[Element.identity], 3⟩ := by
  unfold C
  rfl

/-- C10 (amended): `C` performs no validation of `n`; for `n = 0` and for
every negative `n` the call succeeds and returns the one-element group
`[Identity]`, because the generating range `1..n-1` is empty (so the
division `360 / n` is never evaluated). -/
theorem claim_C10 (n : ℤ) (axis : List ℝ) (hn : n ≤ 0) :
    C n axis = ⟨[Element.identity], 3⟩ := by
  unfold C
  have h : (n - 1).toNat = 0 := by omega
  rw [h]
  rfl

theorem claim_C10_witness :
    (-5 : ℤ) ≤ 0 ∧ C (-5) [0, 0, 1] = ⟨[Element.identity], 3⟩ :=
  ⟨by norm_num, claim_C10 (-5) [0, 0, 1] (by norm_num)⟩

/-- C9: if `angle / 360` is already within tolerance of an integer, the
termination test fires at `i = 1`, before any screw is appended, so
`screw_group` returns the one-element group `[Identity]`. -/
theorem claim_C9 (angle : ℚ) (trans origin : List ℝ) (fuel : ℕ)
    (h1 : is_approx_int (angle / 360)) (hf : 1 ≤ fuel) :
    screw_group angle trans origin fuel = some ⟨[Element.identity], 3⟩ := by
  obtain ⟨f, rfl⟩ : ∃ f, fuel = f + 1 := ⟨fuel - 1, by omega⟩
  unfold screw_group
  simp only [screwGroupLoop]
  rw [if_pos (by simpa using h1)]

theorem claim_C9_witness :
    (is_approx_int ((0 : ℚ) / 360) ∧
      screw_group 0 [0, 0, 1] [0, 0, 0] 5 = some ⟨[Element.identity], 3⟩) ∧
    (is_approx_int ((360 : ℚ) / 360) ∧
      screw_group 360 [0, 0, 1] [0, 0, 0] 5 = some ⟨[Element.identity], 3⟩) :=
  ⟨⟨by norm_num [is_approx_int], claim_C9 0 [0, 0, 1] [0, 0, 0] 5
      (by norm_num [is_approx_int]) (by norm_num)⟩,
   ⟨by norm_num [is_approx_int], claim_C9 360 [0, 0, 1] [0, 0, 0] 5
      (by norm_num [is_approx_int]) (by norm_num)⟩⟩

/-- C8: `screw(angle, trans, origin)` has the Rodrigues rotation about the
normalized direction of `trans` as linear part, translation
`w = trans + (I - W) @ origin`, and with `origin = (0,0,0)` the translation
is exactly `trans`. -/
theorem claim_C8 (angle : ℝ) (trans origin : List ℝ) (ht : toVec trans ≠ 0) :
    (screw angle trans origin).W = (rotation angle trans).W ∧
    (screw angle trans origin).w =
      toVec trans + (1 - (screw angle trans origin).W) *ᵥ toVec origin ∧
    (screw angle trans [0, 0, 0]).w = toVec trans := by
  refine ⟨rfl, rfl, ?_⟩
  show toVec trans + _ *ᵥ toVec [0, 0, 0] = toVec trans
  rw [toVec_zero_list, Matrix.mulVec_zero, add_zero]

theorem claim_C8_witness :
    toVec [0, 0, 1] ≠ 0 ∧
      ((screw 90 [0, 0, 1] [1, 0, 0]).W = (rotation 90 [0, 0, 1]).W ∧
       (screw 90 [0, 0, 1] [1, 0, 0]).w =
         toVec [0, 0, 1] + (1 - (screw 90 [0, 0, 1] [1, 0, 0]).W) *ᵥ toVec [1, 0, 0] ∧
       (screw 90 [0, 0, 1] [0, 0, 0]).w = toVec [0, 0, 1]) :=
  ⟨toVec_e3_ne_zero, claim_C8 90 [0, 0, 1] [1, 0, 0] toVec_e3_ne_zero⟩

/-- C7: `reflection(axis)` succeeds exactly when `axis` has 3 components;
otherwise it raises a `ValueError` whose message points at the planar
variant; on a 3-component nonzero axis it returns
`I - 2 (a ⊗ a)` with `a = axis / ‖axis‖` and no translation. -/
theorem claim_C7 (axis : List ℝ) :
    ((∃ s, reflection axis = Except.ok s) ↔ axis.length = 3) ∧
    (axis.length ≠ 3 → reflection axis = Except.error
      ("The axis must be a 3 component vector." ++
       "If you want reflections in 2 dimensions, use " ++
       "nk.utils.group.planar.reflection instead.")) ∧
    (axis.length = 3 → toVec axis ≠ 0 → reflection axis = Except.ok
      ⟨1 - (2 : ℝ) • outerM (normalize3 (toVec axis)) (normalize3 (toVec axis)), 0⟩) := by
  unfold reflection
  by_cases h : axis.length = 3
  · rw [if_neg (not_not_intro h)]
    refine ⟨⟨fun _ => h, fun _ => ⟨_, rfl⟩⟩, fun hc => absurd h hc, fun _ _ => rfl⟩
  · rw [if_pos h]
    refine ⟨⟨?_, fun hc => absurd hc h⟩, fun _ => rfl, fun hc => absurd hc h⟩
    rintro ⟨s, hs⟩
    cases hs

theorem claim_C7_witness :
    ([0, 0, (1 : ℝ)].length = 3 ∧ toVec [0, 0, 1] ≠ 0 ∧
      reflection [0, 0, 1] = Except.ok
        ⟨1 - (2 : ℝ) • outerM (normalize3 (toVec [0, 0, 1])) (normalize3 (toVec [0, 0, 1])), 0⟩) ∧
    ([1, (0 : ℝ)].length ≠ 3 ∧ reflection [1, 0] = Except.error
      ("The axis must be a 3 component vector." ++
       "If you want reflections in 2 dimensions, use " ++
       "nk.utils.group.planar.reflection instead.")) :=
  ⟨⟨rfl, toVec_e3_ne_zero, (claim_C7 [0, 0, 1]).2.2 rfl toVec_e3_ne_zero⟩,
   ⟨by norm_num, (claim_C7 [1, 0]).2.1 (by norm_num)⟩⟩

/-- Helper: a proper fraction `i / q` with `1 ≤ i < q ≤ 99999999` is at
distance at least `1/q > 1e-8` from every integer, so it is not
approximately an integer. -/
theorem not_approx_int_div {i q : ℕ} (h1 : 1 ≤ i) (h2 : i < q)
    (hq : q ≤ 99999999) : ¬ is_approx_int ((i : ℚ) / (q : ℚ)) := by
  intro hcl
  unfold is_approx_int at hcl
  set z := round ((i : ℚ) / (q : ℚ)) with hz
  have hq0 : (0 : ℚ) < (q : ℚ) := by
    have : 0 < q := by omega
    exact_mod_cast this
  have hne : (i : ℤ) - z * q ≠ 0 := by
    intro h
    have hiz : (i : ℤ) = z * q := by omega
    rcases le_or_lt z 0 with hzle | hzpos
    · have : z * (q : ℤ) ≤ 0 :=
        mul_nonpos_of_nonpos_of_nonneg hzle (by positivity)
      omega
    · have hz1 : 1 ≤ z := hzpos
      have : (q : ℤ) ≤ z * q := le_mul_of_one_le_left (by positivity) hz1
      omega
  have habs : (1 : ℚ) ≤ |(i : ℚ) - (z : ℚ) * (q : ℚ)| := by
    have h1' : (1 : ℤ) ≤ |(i : ℤ) - z * q| := Int.one_le_abs hne
    exact_mod_cast h1'
  have hdist : (1 : ℚ) / q ≤ |(i : ℚ) / q - (z : ℚ)| := by
    have heq : (i : ℚ) / q - (z : ℚ) = ((i : ℚ) - (z : ℚ) * q) / q := by
      field_simp
      ring
    rw [heq, abs_div, abs_of_pos hq0]
    exact (div_le_div_iff_of_pos_right hq0).mpr habs
  have hqlt : (1 : ℚ) / 100000000 < 1 / q := by
    apply one_div_lt_one_div_of_lt hq0
    have : (q : ℚ) ≤ 99999999 := by exact_mod_cast hq
    linarith
  linarith [hcl, hdist, hqlt]

/-- C1: the claim asserts that the generation loop of `screw_group` is
explicitly bounded and signals an observable failure.  It is not: at
`angle = 360/1000003` the tolerance test fails at every one of the first
one million indices, and after one million iterations the loop has produced
neither a result nor any failure — its only exit is the tolerance test. -/
theorem claim_C1_counterexample :
    (∀ j : ℕ, 1 ≤ j → j ≤ 1000000 →
      ¬ is_approx_int ((j : ℚ) * (360 / 1000003) / 360)) ∧
    screw_group (360 / 1000003) [0, 0, 1] [0, 0, 0] 1000000 = none := by
  have key : ∀ j : ℕ, 1 ≤ j → j ≤ 1000000 →
      ¬ is_approx_int ((j : ℚ) * (360 / 1000003) / 360) := by
    intro j hj1 hj2
    have hval : (j : ℚ) * (360 / 1000003) / 360 = (j : ℚ) / ((1000003 : ℕ) : ℚ) := by
      push_cast
      ring
    rw [hval]
    exact not_approx_int_div hj1 (by omega) (by omega)
  refine ⟨key, ?_⟩
  unfold screw_group
  apply screwGroupLoop_eq_none
  intro j hj1 hj2
  exact key j hj1 (by omega)

/-- C1 (amended): the loop of `screw_group` is unbounded and has no failure
branch: for every iteration count `n`, if the tolerance test fails at each
of the first `n` indices, then after `n` iterations the loop has produced
neither a result nor a failure. -/
theorem claim_C1 (angle : ℚ) (trans origin : List ℝ) (n : ℕ)
    (h : ∀ i, 1 ≤ i → i ≤ n → ¬ is_approx_int ((i : ℚ) * angle / 360)) :
    screw_group angle trans origin n = none := by
  unfold screw_group
  apply screwGroupLoop_eq_none
  intro j hj1 hj2
  exact h j hj1 (by omega)

theorem claim_C1_witness :
    (∀ i : ℕ, 1 ≤ i → i ≤ 3 → ¬ is_approx_int ((i : ℚ) * (360 / 7) / 360)) ∧
      screw_group (360 / 7) [0, 0, 1] [0, 0, 0] 3 = none := by
  have h : ∀ i : ℕ, 1 ≤ i → i ≤ 3 → ¬ is_approx_int ((i : ℚ) * (360 / 7) / 360) := by
    intro i h1 h2
    interval_cases i <;> norm_num [is_approx_int, round_eq, abs_of_pos]
  exact ⟨h, claim_C1 (360 / 7) [0, 0, 1] [0, 0, 0] 3 h⟩

/-- C2: whenever some positive multiple of `angle/360` is within tolerance
of an integer and `k` is the least such multiplier, `screw_group` stops at
`i = k` and returns the `k`-element group
`[Identity, screw(angle, trans, origin), …, screw((k-1)·angle, (k-1)·trans, origin)]`. -/
theorem claim_C2 (angle : ℚ) (trans origin : List ℝ) (k fuel : ℕ)
    (hk1 : 1 ≤ k) (hk : is_approx_int ((k : ℚ) * angle / 360))
    (hmin : ∀ j, 1 ≤ j → j < k → ¬ is_approx_int ((j : ℚ) * angle / 360))
    (hfuel : k ≤ fuel) :
    screw_group angle trans origin fuel =
      some ⟨Element.identity :: (List.range (k - 1)).map
        (fun t => screwElem angle trans origin (1 + t)), 3⟩ ∧
    (Element.identity :: (List.range (k - 1)).map
      (fun t => screwElem angle trans origin (1 + t))).length = k := by
  constructor
  · unfold screw_group
    rw [screwGroupLoop_closes angle trans origin fuel 1 k [Element.identity] hk1
      (by omega) hk (fun j hj1 hj2 => hmin j hj1 hj2)]
    rfl
  · simp only [List.length_cons, List.length_map, List.length_range]
    omega

theorem claim_C2_witness :
    (1 ≤ 2 ∧ is_approx_int ((2 : ℚ) * 180 / 360) ∧
      (∀ j : ℕ, 1 ≤ j → j < 2 → ¬ is_approx_int ((j : ℚ) * 180 / 360))) ∧
    screw_group 180 [0, 0, 1] [0, 0, 0] 2 =
      some ⟨Element.identity :: (List.range (2 - 1)).map
        (fun t => screwElem 180 [0, 0, 1] [0, 0, 0] (1 + t)), 3⟩ ∧
    (Element.identity :: (List.range (2 - 1)).map
      (fun t => screwElem 180 [0, 0, 1] [0, 0, 0] (1 + t))).length = 2 := by
  have h1 : is_approx_int ((2 : ℚ) * 180 / 360) := by norm_num [is_approx_int]
  have h2 : ∀ j : ℕ, 1 ≤ j → j < 2 → ¬ is_approx_int ((j : ℚ) * 180 / 360) := by
    intro j hj1 hj2
    interval_cases j
    norm_num [is_approx_int, round_eq, abs_of_pos]
  exact ⟨⟨by norm_num, h1, h2⟩,
    claim_C2 180 [0, 0, 1] [0, 0, 0] 2 2 (by norm_num) h1 h2 le_rfl⟩

/-- C4: for odd `n`, `S(n, axis)` is `Ch(n, axis)`; for even `n ≥ 2` it is
the direct list `[Identity]` followed by `rotoreflection(360·i/n, axis)` at
odd `i` and `rotation(360·i/n, axis)` at even `i`, `i = 1..n-1`. -/
theorem claim_C4 (n : ℤ) (axis : List ℝ) :
    (n % 2 = 1 → S n axis = Ch n axis) ∧
    (n % 2 = 0 → 2 ≤ n → S n axis =
      Except.ok ⟨Element.identity :: ((List.range (n - 1).toNat).map fun (i : ℕ) =>
        if (i + 1) % 2 = 1 then
          Element.pg (rotoreflection (360 * ((i : ℝ) + 1) / (n : ℝ)) axis)
        else
          Element.pg (rotation (360 * ((i : ℝ) + 1) / (n : ℝ)) axis)), 3⟩) := by
  constructor
  · intro h
    unfold S
    rw [if_pos h]
  · intro h _
    unfold S
    rw [if_neg (by omega)]
    congr 3
    apply List.map_congr_left
    intro i _
    have harg : 360 / (n : ℝ) * ((i : ℝ) + 1) = 360 * ((i : ℝ) + 1) / (n : ℝ) := by ring
    rw [harg]

theorem claim_C4_witness :
    ((3 : ℤ) % 2 = 1 ∧ S 3 [0, 0, 1] = Ch 3 [0, 0, 1]) ∧
    ((4 : ℤ) % 2 = 0 ∧ 2 ≤ (4 : ℤ) ∧ S 4 [0, 0, 1] =
      Except.ok ⟨Element.identity :: ((List.range ((4 : ℤ) - 1).toNat).map fun (i : ℕ) =>
        if (i + 1) % 2 = 1 then
          Element.pg (rotoreflection (360 * ((i : ℝ) + 1) / ((4 : ℤ) : ℝ)) [0, 0, 1])
        else
          Element.pg (rotation (360 * ((i : ℝ) + 1) / ((4 : ℤ) : ℝ)) [0, 0, 1])), 3⟩) :=
  ⟨⟨by norm_num, (claim_C4 3 [0, 0, 1]).1 (by norm_num)⟩,
   ⟨by norm_num, by norm_num, (claim_C4 4 [0, 0, 1]).2 (by norm_num) (by norm_num)⟩⟩

/-- C6: `Cv`, `D`, `Dh`, `Dd` fail (assertion-style) whenever the axes'
dot product is not near zero, and `glide`/`glide_group` fail whenever
`axis·trans` is not near zero; with perpendicular inputs (and 3-component
axes where a `reflection` is built) each returns a complete result. -/
theorem claim_C6 (n : ℤ) (axis axis2 trans origin : List ℝ) :
    (¬ isCloseZero (dotL axis axis2) →
      (∃ e, Cv n axis axis2 = Except.error e) ∧
      (∃ e, D n axis axis2 = Except.error e) ∧
      (∃ e, Dh n axis axis2 = Except.error e) ∧
      (∃ e, Dd n axis axis2 = Except.error e)) ∧
    (¬ isCloseZero (dotL axis trans) →
      (∃ e, glide axis trans origin = Except.error e) ∧
      (∃ e, glide_group axis trans origin = Except.error e)) ∧
    (isCloseZero (dotL axis axis2) →
      (axis2.length = 3 →
        (∃ g, Cv n axis axis2 = Except.ok g) ∧ (∃ g, Dd n axis axis2 = Except.ok g)) ∧
      (∃ g, D n axis axis2 = Except.ok g) ∧
      (axis.length = 3 → ∃ g, Dh n axis axis2 = Except.ok g)) ∧
    (isCloseZero (dotL axis trans) →
      (∃ s, glide axis trans origin = Except.ok s) ∧
      (∃ g, glide_group axis trans origin = Except.ok g)) := by
  refine ⟨fun hbad => ⟨?_, ?_, ?_, ?_⟩, fun hbad => ⟨?_, ?_⟩,
    fun hgood => ⟨fun hlen2 => ⟨?_, ?_⟩, ?_, fun hlen => ?_⟩, fun hgood => ⟨?_, ?_⟩⟩
  · exact ⟨_, by unfold Cv; rw [if_neg hbad]⟩
  · exact ⟨_, by unfold D; rw [if_neg hbad]⟩
  · unfold Dh
    rcases h : reflection_group axis with e | rg
    · exact ⟨e, rfl⟩
    · refine ⟨"AssertionError", ?_⟩
      show Except.bind (D n axis axis2) _ = _
      unfold D
      rw [if_neg hbad]
      rfl
  · exact ⟨_, by unfold Dd; rw [if_neg hbad]⟩
  · exact ⟨_, by unfold glide; rw [if_neg hbad]⟩
  · refine ⟨"AssertionError", ?_⟩
    unfold glide_group glide
    rw [if_neg hbad]
    rfl
  · unfold Cv reflection_group reflection
    rw [if_pos hgood, if_neg (not_not_intro hlen2)]
    exact ⟨_, rfl⟩
  · unfold Dd reflection_group reflection
    rw [if_pos hgood, if_neg (not_not_intro hlen2)]
    rcases hS : S (2 * n) axis with e | sg
    · exfalso
      unfold S at hS
      rw [if_neg (by omega)] at hS
      cases hS
    · exact ⟨_, rfl⟩
  · unfold D
    rw [if_pos hgood]
    exact ⟨_, rfl⟩
  · unfold Dh reflection_group reflection D
    rw [if_neg (not_not_intro hlen), if_pos hgood]
    exact ⟨_, rfl⟩
  · unfold glide
    rw [if_pos hgood]
    exact ⟨_, rfl⟩
  · unfold glide_group glide
    rw [if_pos hgood]
    exact ⟨_, rfl⟩

theorem claim_C6_witness :
    (¬ isCloseZero (dotL [0, 0, 1] [0, 0, (1 : ℝ)]) ∧
      (∃ e, Cv 2 [0, 0, 1] [0, 0, 1] = Except.error e) ∧
      (∃ e, D 2 [0, 0, 1] [0, 0, 1] = Except.error e) ∧
      (∃ e, Dh 2 [0, 0, 1] [0, 0, 1] = Except.error e) ∧
      (∃ e, Dd 2 [0, 0, 1] [0, 0, 1] = Except.error e) ∧
      (∃ e, glide [0, 0, 1] [0, 0, 1] [0, 0, 0] = Except.error e) ∧
      (∃ e, glide_group [0, 0, 1] [0, 0, 1] [0, 0, 0] = Except.error e)) ∧
    (isCloseZero (dotL [0, 0, 1] [1, 0, (0 : ℝ)]) ∧
      (∃ g, Cv 2 [0, 0, 1] [1, 0, 0] = Except.ok g) ∧
      (∃ g, Dd 2 [0, 0, 1] [1, 0, 0] = Except.ok g) ∧
      (∃ g, D 2 [0, 0, 1] [1, 0, 0] = Except.ok g) ∧
      (∃ g, Dh 2 [0, 0, 1] [1, 0, 0] = Except.ok g) ∧
      (∃ s, glide [0, 0, 1] [1, 0, 0] [0, 0, 0] = Except.ok s) ∧
      (∃ g, glide_group [0, 0, 1] [1, 0, 0] [0, 0, 0] = Except.ok g)) := by
  have hbad : ¬ isCloseZero (dotL [0, 0, 1] [0, 0, (1 : ℝ)]) := by
    unfold isCloseZero dotL atol
    norm_num
  have hgood : isCloseZero (dotL [0, 0, 1] [1, 0, (0 : ℝ)]) := by
    unfold isCloseZero dotL atol
    norm_num
  have hb := claim_C6 2 [0, 0, 1] [0, 0, 1] [0, 0, 1] [0, 0, 0]
  have hg := claim_C6 2 [0, 0, 1] [1, 0, 0] [1, 0, 0] [0, 0, 0]
  refine ⟨⟨hbad, (hb.1 hbad).1, (hb.1 hbad).2.1, (hb.1 hbad).2.2.1, (hb.1 hbad).2.2.2,
    (hb.2.1 hbad).1, (hb.2.1 hbad).2⟩,
    ⟨hgood, ((hg.2.2.1 hgood).1 rfl).1, ((hg.2.2.1 hgood).1 rfl).2,
     (hg.2.2.1 hgood).2.1, (hg.2.2.1 hgood).2.2 rfl,
     (hg.2.2.2 hgood).1, (hg.2.2.2 hgood).2⟩⟩

/-- C3: for `n ≥ 1` and a nonzero axis, `C(n, axis)` is `Identity` followed
by `rotation(360·i/n, axis)` for `i = 1..n-1`, has exactly `n` elements, and
the `n`-th power of the linear part of `rotation(360/n, axis)` is the
identity matrix. -/
theorem claim_C3 (n : ℤ) (axis : List ℝ) (hn : 1 ≤ n) (ha : toVec axis ≠ 0) :
    C n axis = ⟨Element.identity :: ((List.range (n.toNat - 1)).map fun (i : ℕ) =>
      Element.pg (rotation (360 * ((i : ℝ) + 1) / (n : ℝ)) axis)), 3⟩ ∧
    (C n axis).elems.length = n.toNat ∧
    (rotation (360 / (n : ℝ)) axis).W ^ n.toNat = 1 := by
  have htn : (n - 1).toNat = n.toNat - 1 := by omega
  have hC : C n axis = ⟨Element.identity :: ((List.range (n.toNat - 1)).map fun (i : ℕ) =>
      Element.pg (rotation (360 * ((i : ℝ) + 1) / (n : ℝ)) axis)), 3⟩ := by
    unfold C
    rw [htn]
    congr 2
    apply List.map_congr_left
    intro i _
    have harg : 360 / (n : ℝ) * ((i : ℝ) + 1) = 360 * ((i : ℝ) + 1) / (n : ℝ) := by ring
    rw [harg]
  refine ⟨hC, ?_, ?_⟩
  · show (Element.identity :: ((List.range (n - 1).toNat).map fun (i : ℕ) =>
        Element.pg (rotation (360 / (n : ℝ) * ((i : ℝ) + 1)) axis))).length = n.toNat
    rw [List.length_cons, List.length_map, List.length_range]
    omega
  · have hu : unitVec (normalize3 (toVec axis)) := unitVec_normalize3 ha
    have hW : (rotation (360 / (n : ℝ)) axis).W =
        rotM (Real.cos (radians (360 / (n : ℝ)))) (Real.sin (radians (360 / (n : ℝ))))
          (normalize3 (toVec axis)) := rfl
    rw [hW, rotM_pow hu]
    have hpos : (0 : ℤ) < n := by omega
    have hn0 : (n : ℝ) ≠ 0 := by
      have : (0 : ℝ) < (n : ℝ) := by exact_mod_cast hpos
      linarith
    have harg : (n.toNat : ℝ) * radians (360 / (n : ℝ)) = 2 * Real.pi := by
      have hcast : ((n.toNat : ℕ) : ℝ) = (n : ℝ) := by
        have h := Int.toNat_of_nonneg (show (0 : ℤ) ≤ n by omega)
        exact_mod_cast h
      unfold radians
      rw [hcast]
      field_simp
      ring
    rw [harg, Real.cos_two_pi, Real.sin_two_pi, rotM_one]

theorem claim_C3_witness :
    (1 ≤ (2 : ℤ) ∧ toVec [0, 0, 1] ≠ 0) ∧
    (C 2 [0, 0, 1] = ⟨Element.identity :: ((List.range ((2 : ℤ).toNat - 1)).map fun (i : ℕ) =>
        Element.pg (rotation (360 * ((i : ℝ) + 1) / ((2 : ℤ) : ℝ)) [0, 0, 1])), 3⟩ ∧
      (C 2 [0, 0, 1]).elems.length = (2 : ℤ).toNat ∧
      (rotation (360 / ((2 : ℤ) : ℝ)) [0, 0, 1]).W ^ (2 : ℤ).toNat = 1) :=
  ⟨⟨by norm_num, toVec_e3_ne_zero⟩, claim_C3 2 [0, 0, 1] (by norm_num) toVec_e3_ne_zero⟩

/-- C5: the linear parts built by `rotation`, `reflection`,
`rotoreflection`, `inversion`, `screw` and `glide` are orthogonal:
`Wᵀ · W = I` (for nonzero axis, and nonzero `trans` for `screw`). -/
theorem claim_C5 (angle : ℝ) (axis trans origin : List ℝ)
    (ha : toVec axis ≠ 0) (ht : toVec trans ≠ 0) :
    (rotation angle axis).Wᵀ * (rotation angle axis).W = 1 ∧
    (∀ s, reflection axis = Except.ok s → s.Wᵀ * s.W = 1) ∧
    (rotoreflection angle axis).Wᵀ * (rotoreflection angle axis).W = 1 ∧
    inversion.Wᵀ * inversion.W = 1 ∧
    (screw angle trans origin).Wᵀ * (screw angle trans origin).W = 1 ∧
    (∀ s, glide axis trans origin = Except.ok s → s.Wᵀ * s.W = 1) := by
  have hua : unitVec (normalize3 (toVec axis)) := unitVec_normalize3 ha
  have hut : unitVec (normalize3 (toVec trans)) := unitVec_normalize3 ht
  have hcs : ∀ x : ℝ, Real.cos x ^ 2 + Real.sin x ^ 2 = 1 := Real.cos_sq_add_sin_sq
  refine ⟨?_, ?_, ?_, ?_, ?_, ?_⟩
  · exact rotM_orthogonal hua (hcs _)
  · intro s hs
    unfold reflection at hs
    by_cases h : axis.length = 3
    · rw [if_neg (not_not_intro h)] at hs
      cases hs
      exact reflW_orthogonal hua
    · rw [if_pos h] at hs
      cases hs
  · exact transpose_mul_self_of (reflW_orthogonal hua) (rotM_orthogonal hua (hcs _))
  · show (-1 : Mat3)ᵀ * (-1 : Mat3) = 1
    simp
  · exact rotM_orthogonal hut (hcs _)
  · intro s hs
    unfold glide at hs
    by_cases h : isCloseZero (dotL axis trans)
    · rw [if_pos h] at hs
      cases hs
      exact reflW_orthogonal hua
    · rw [if_neg h] at hs
      cases hs

theorem claim_C5_witness :
    toVec [0, 0, 1] ≠ 0 ∧ toVec [1, 0, 0] ≠ 0 ∧
    ((rotation 90 [0, 0, 1]).Wᵀ * (rotation 90 [0, 0, 1]).W = 1 ∧
     (∀ s, reflection [0, 0, 1] = Except.ok s → s.Wᵀ * s.W = 1) ∧
     (rotoreflection 90 [0, 0, 1]).Wᵀ * (rotoreflection 90 [0, 0, 1]).W = 1 ∧
     inversion.Wᵀ * inversion.W = 1 ∧
     (screw 90 [1, 0, 0] [0, 0, 0]).Wᵀ * (screw 90 [1, 0, 0] [0, 0, 0]).W = 1 ∧
     (∀ s, glide [0, 0, 1] [1, 0, 0] [0, 0, 0] = Except.ok s → s.Wᵀ * s.W = 1)) :=
  ⟨toVec_e3_ne_zero, toVec_e1_ne_zero,
    claim_C5 90 [0, 0, 1] [1, 0, 0] [0, 0, 0] toVec_e3_ne_zero toVec_e1_ne_zero⟩

end Axial
